import Mathlib

/-!
Shallow embedding of the XMLParser_Cpp repository (xml_document.h / xml_document.cpp)
and verification of the frozen claims about it.

Strings are modelled as `List Char`.  Each `std::regex` used by the C++ source is a
fixed pattern applied either anchored (`^...` via `bb::regex_search`, which only ever
matches at the current cursor because of the leading `^`) or as an unanchored search;
each one is translated here as an explicit scanning function with the exact
ECMAScript greedy/lazy semantics of that concrete pattern.
-/

namespace XMLParser

abbrev Str := List Char

/-- The apostrophe character (ASCII 39). -/
def apos_char : Char := Char.ofNat 39

/-- ECMAScript `\s` for the patterns used by the source: space, \t, \n, \v, \f, \r. -/
def is_space_char (c : Char) : Bool :=
  c == ' ' || c == '\t' || c == '\n' || c == Char.ofNat 11 || c == Char.ofNat 12 || c == '\r'

/-- C++ `is_space(itr, end)`: `itr >= end` is blank, otherwise the slice must match
`^\s*$`, i.e. every character is whitespace. -/
def is_space (cs : Str) : Bool := cs.all is_space_char

/-- Split at the first occurrence of character `t`: returns the (t-free) prefix and
the suffix after `t`. -/
def splitAtChar (t : Char) : Str → Option (Str × Str)
  | [] => none
  | c :: rest =>
    if c = t then some ([], rest)
    else (splitAtChar t rest).map (fun p => (c :: p.1, p.2))

/-- Split at the first occurrence of the substring `pat`: returns the prefix before
the match and the suffix after it (the semantics of a lazy `[\s\S]*?` followed by a
literal, as in the `?>`, `]]>` scans of the source). -/
def findSub (pat : Str) : Str → Option (Str × Str)
  | [] => if pat.isPrefixOf ([] : Str) then some ([], []) else none
  | c :: rest =>
    if pat.isPrefixOf (c :: rest) then some ([], (c :: rest).drop pat.length)
    else (findSub pat rest).map (fun p => (c :: p.1, p.2))

/-- One left-to-right, non-overlapping global substitution (`std::regex_replace` with
a literal pattern), with fuel for structural recursion; `replaceAll` supplies enough. -/
def replaceAllF : Nat → Str → Str → Str → Str
  | 0, _, _, cs => cs
  | _ + 1, _, _, [] => []
  | f + 1, pat, rep, c :: rest =>
    if pat ≠ [] ∧ pat.isPrefixOf (c :: rest) then
      rep ++ replaceAllF f pat rep (rest.drop (pat.length - 1))
    else
      c :: replaceAllF f pat rep rest

def replaceAll (pat rep cs : Str) : Str := replaceAllF cs.length pat rep cs

/-- Lookahead alternatives of `&(?!lt;|gt;|apos;|quot;|amp;|#\d+;|#x[0-9a-fA-F]{4};)`:
does the text following a `&` start with one of the allowed continuations? -/
def is_hex_digit (c : Char) : Bool :=
  c.isDigit || ('a' ≤ c && c ≤ 'f') || ('A' ≤ c && c ≤ 'F')

def dec_ref_follow (cs : Str) : Bool :=
  match cs with
  | '#' :: rest =>
    decide (rest.takeWhile Char.isDigit ≠ []) &&
      (match rest.dropWhile Char.isDigit with
       | ';' :: _ => true
       | _ => false)
  | _ => false

def hex_ref_follow (cs : Str) : Bool :=
  match cs with
  | '#' :: 'x' :: a :: b :: c :: d :: ';' :: _ =>
    is_hex_digit a && is_hex_digit b && is_hex_digit c && is_hex_digit d
  | _ => false

def amp_follow_ok (cs : Str) : Bool :=
  "lt;".toList.isPrefixOf cs || "gt;".toList.isPrefixOf cs ||
  "apos;".toList.isPrefixOf cs || "quot;".toList.isPrefixOf cs ||
  "amp;".toList.isPrefixOf cs || dec_ref_follow cs || hex_ref_follow cs

/-- Unanchored search for a `&` whose continuation fails the lookahead. -/
def has_bad_amp : Str → Bool
  | [] => false
  | '&' :: rest => if amp_follow_ok rest then has_bad_amp rest else true
  | _ :: rest => has_bad_amp rest

/-- C++ `_unescape_xml_entity`: validate the slice against the policy character class
and the entity lookahead, then rewrite the five named entities in the fixed order
lt, gt, apos, quot, amp.  `none` models the thrown iterator. -/
def unescape_xml_entity (illegal : List Char) (cs : Str) : Option Str :=
  if cs.any (fun c => illegal.contains c) then none
  else if has_bad_amp cs then none
  else
    some (replaceAll "&amp;".toList ['&']
      (replaceAll "&quot;".toList ['"']
        (replaceAll "&apos;".toList [apos_char]
          (replaceAll "&gt;".toList ['>']
            (replaceAll "&lt;".toList ['<'] cs)))))

def unescape_xml_inner_text (cs : Str) : Option Str :=
  unescape_xml_entity ['<'] cs

def unescape_xml_attribute_value (cs : Str) : Option Str :=
  unescape_xml_entity ['<', apos_char, '"'] cs

def unescape_xml_attribute_value_with_apos (cs : Str) : Option Str :=
  unescape_xml_entity ['<', apos_char] cs

/-- C++ `validate_tag_name`: searches `[<>'\"&]`; returns `false` when the name
contains one of those characters (the C++ then throws). -/
def validate_tag_name (cs : Str) : Bool :=
  !(cs.any fun c => c == '<' || c == '>' || c == apos_char || c == '"' || c == '&')

/-- `std::string` ordering used by the `std::map<std::string, std::string>` keys. -/
def str_lt : Str → Str → Bool
  | [], [] => false
  | [], _ :: _ => true
  | _ :: _, [] => false
  | a :: as, b :: bs => if a < b then true else if b < a then false else str_lt as bs

/-- `attributes[key] = value` on an ordered map: sorted insert, later writes win. -/
def mapInsert (k v : Str) : List (Str × Str) → List (Str × Str)
  | [] => [(k, v)]
  | (k', v') :: rest =>
    if str_lt k k' then (k, v) :: (k', v') :: rest
    else if k = k' then (k, v) :: rest
    else (k', v') :: mapInsert k v rest

/-- One attempted match of `\s+([^=]+)=([\"'])([\s\S]*?)\2` anchored at the head of
`cs`: returns `(m[0].length, key, quote, raw value)`.  The greedy `\s+` takes the
maximal whitespace run `w`; `[^=]+` then runs to the first `=`; if the run of
whitespace extends to the `=` itself, `\s+` backtracks one character so the key
becomes a single whitespace character. -/
def matchAttrHere (cs : Str) : Option (Nat × Str × Char × Str) :=
  let w := (cs.takeWhile is_space_char).length
  if w = 0 then none
  else
    match splitAtChar '=' cs with
    | none => none
    | some (pre, post) =>
      let e := pre.length
      if e < w then none
      else
        let wp := if e = w then w - 1 else w
        if wp = 0 then none
        else
          match post with
          | [] => none
          | q :: rest =>
            if q = '"' ∨ q = apos_char then
              match splitAtChar q rest with
              | none => none
              | some (v, _) => some (e + v.length + 3, (cs.drop wp).take (e - wp), q, v)
            else none

/-- Unanchored `std::regex_search` for the attribute pattern: try every start
position, leftmost match wins. -/
def searchAttr : Str → Option (Nat × Str × Char × Str)
  | [] => none
  | c :: rest =>
    match matchAttrHere (c :: rest) with
    | some r => some r
    | none => searchAttr rest

/-- C++ `parse_xml_attributes` loop.  Outer `none` = fuel exhausted (never happens,
see `attr_loop_isSome`); inner `none` = the thrown iterator.  Note the faithful
`itr += m[0].length()` advance: the cursor moves by the match LENGTH from the current
position even when the match started later. -/
def attr_loop : Nat → List (Str × Str) → Str → Option (Option (List (Str × Str)))
  | 0, _, _ => none
  | fuel + 1, acc, cs =>
    match searchAttr cs with
    | none => if is_space cs then some (some acc) else some none
    | some (len, key, q, v) =>
      match (if q = '"' then unescape_xml_attribute_value v
             else unescape_xml_attribute_value_with_apos v) with
      | none => some none
      | some val => attr_loop fuel (mapInsert key val acc) (cs.drop len)

def parse_xml_attributes (cs : Str) : Option (Option (List (Str × Str))) :=
  attr_loop (cs.length + 1) [] cs

/-- The error kinds of §7, plus `assertionFailed` for the
`assert(current_node != nullptr)` on line 207. -/
inductive xml_error_kind : Type where
  | noXmlDeclaration
  | unsupportedVersion
  | illegalAttributes
  | noEscapedCharacter
  | illegalComment
  | missingClosingTag
  | noNameTag
  | illegalTagName
  | mismatchedClosingTag
  | closingTagWithAttributes
  | closingTagSelfClosing
  | illegalFormatTrailingContent
  | assertionFailed
deriving DecidableEq

/-- The node tree (struct xml_node): name, attributes, value, children. -/
inductive xml_node : Type where
  | mk (name : Str) (attributes : List (Str × Str)) (value : Str) (nodes : List xml_node)

def xml_node.name : xml_node → Str
  | .mk n _ _ _ => n

def xml_node.attributes : xml_node → List (Str × Str)
  | .mk _ a _ _ => a

def xml_node.value : xml_node → Str
  | .mk _ _ v _ => v

def xml_node.nodes : xml_node → List xml_node
  | .mk _ _ _ ns => ns

mutual

/-- C++ `xml_node::inner_text`: own value, then children depth-first. -/
def inner_text : xml_node → Str
  | .mk _ _ v ns => v ++ inner_text_list ns

def inner_text_list : List xml_node → Str
  | [] => []
  | n :: ns => inner_text n ++ inner_text_list ns

end

/-- An open element on the parser's stack (the C++ keeps these linked by
`parent` weak pointers; the children accumulated so far live in `fchildren`). -/
structure frame : Type where
  fname : Str
  fattrs : List (Str × Str)
  fchildren : List xml_node

/-- Closing-tag finalization of the current node (lines 202-205): if its children
are exactly one node named `#text`, move that node's value up and clear children. -/
def finish_node (f : frame) : xml_node :=
  match f.fchildren with
  | [c] =>
    if c.name = "#text".toList then .mk f.fname f.fattrs c.value []
    else .mk f.fname f.fattrs [] [c]
  | cs => .mk f.fname f.fattrs [] cs

/-- End-of-input finalization of a still-open frame: no collapse is performed. -/
def close_frame_plain (f : frame) : xml_node :=
  .mk f.fname f.fattrs [] f.fchildren

/-- Fold the remaining open frames (innermost first) back into the top container
and return the top container's children (in the C++ the open nodes were already
attached to their parents when first pushed). -/
def collapse_stack : frame → List frame → List xml_node
  | f, [] => f.fchildren
  | f, g :: rest =>
    collapse_stack { g with fchildren := g.fchildren ++ [close_frame_plain f] } rest

def append_child (stack : List frame) (n : xml_node) : List frame :=
  match stack with
  | [] => []
  | f :: rest => { f with fchildren := f.fchildren ++ [n] } :: rest

def push_text (stack : List frame) (v : Str) : List frame :=
  append_child stack (.mk "#text".toList [] v [])

/-- Tag-head pattern `^([^<]*?)<((!--|!\[CDATA\[|[^>\s]*))`: text before the first
`<`, then the comment / CDATA markers or a greedy run of characters that are
neither `>` nor whitespace.  Returns `(m[1], m[2], rest after m[0])`. -/
def tag_head (cs : Str) : Option (Str × Str × Str) :=
  match splitAtChar '<' cs with
  | none => none
  | some (g1, after) =>
    if "!--".toList.isPrefixOf after then some (g1, "!--".toList, after.drop 3)
    else if "![CDATA[".toList.isPrefixOf after then
      some (g1, "![CDATA[".toList, after.drop 8)
    else
      let t := after.takeWhile (fun c => !(c == '>' || is_space_char c))
      some (g1, t, after.drop t.length)

/-- Comment-terminator pattern `^[^-]*(--[\s\S]?)`: run to the first `-`, which must
start a `--`; `m[1]` is `--` plus (greedily) one more character if present.
Returns `(m[1], rest after m[0])`; `none` = the anchored search failed. -/
def comment_end_scan (cs : Str) : Option (Str × Str) :=
  match splitAtChar '-' cs with
  | none => none
  | some (_, after) =>
    match after with
    | '-' :: c :: rest2 => some (['-', '-', c], rest2)
    | ['-'] => some (['-', '-'], [])
    | _ => none

/-- Pattern `^([\s\S]*?)(/?)>`: everything (lazily) up to the first `>`, noting
whether the character directly before that `>` is `/`.
Returns `(attribute blob, self-closing?, rest)`. -/
def close_scan (cs : Str) : Option (Str × Bool × Str) :=
  match splitAtChar '>' cs with
  | none => none
  | some (blob, rest) =>
    if blob.getLast? = some '/' then some (blob.dropLast, true, rest)
    else some (blob, false, rest)

/-- Trailing-comment pattern `^([^<]*?)(<!--)`: text (without `<`) up to a `<` that
must start `<!--`.  Returns the rest after `m[0]`. -/
def trail_comment_head (cs : Str) : Option Str :=
  match splitAtChar '<' cs with
  | none => none
  | some (_, after) =>
    if "!--".toList.isPrefixOf after then some (after.drop 3) else none

/-- Outcome of one iteration of the main tag loop. -/
inductive step_result : Type where
  | done : step_result
  | err : xml_error_kind → step_result
  | cont : List frame → Str → Str → step_result

/-- After the tag head was matched and the preceding inner text unescaped:
classification and handling of one tag (lines 125-226 of the source).
`pending1` is `inner_text_before_tag` including the just-unescaped slice. -/
def main_step_tag (stack : List frame) (pending1 : Str) (tag rest : Str) :
    Option step_result :=
  if tag = "!--".toList then
    match comment_end_scan rest with
    | none => some (.err .missingClosingTag)
    | some (m1, rest2) =>
      if m1 = "-->".toList then some (.cont stack pending1 rest2)
      else some (.err .illegalComment)
  else if tag = "![CDATA[".toList then
    match findSub "]]>".toList rest with
    | none => some (.err .missingClosingTag)
    | some (inner, rest2) => some (.cont stack (pending1 ++ inner) rest2)
  else if tag = [] then some (.err .noNameTag)
  else if validate_tag_name tag = false then some (.err .illegalTagName)
  else
    match close_scan rest with
    | none => some (.err .missingClosingTag)
    | some (blob, selfc, rest2) =>
      match parse_xml_attributes blob with
      | none => none
      | some none => some (.err .illegalAttributes)
      | some (some attrs) =>
        let stack1 := if is_space pending1 then stack else push_text stack pending1
        if tag.head? = some '/' then
          if selfc then some (.err .closingTagSelfClosing)
          else
            match stack1 with
            | [] => none
            | cur :: up =>
              if tag ≠ '/' :: cur.fname then some (.err .mismatchedClosingTag)
              else if attrs ≠ [] then some (.err .closingTagWithAttributes)
              else
                match up with
                | [] => some (.err .assertionFailed)
                | par :: up2 =>
                  some (.cont
                    ({ par with fchildren := par.fchildren ++ [finish_node cur] } :: up2)
                    [] rest2)
        else if selfc then
          some (.cont (append_child stack1 (.mk tag attrs [] [])) [] rest2)
        else
          some (.cont (frame.mk tag attrs [] :: stack1) [] rest2)

/-- One iteration of the main tag loop: match the tag head, unescape the inner text
before it, then classify. -/
def main_step (stack : List frame) (pending cs : Str) : Option step_result :=
  match tag_head cs with
  | none => some .done
  | some (g1, tag, rest) =>
    match unescape_xml_inner_text g1 with
    | none => some (.err .noEscapedCharacter)
    | some u => main_step_tag stack (pending ++ u) tag rest

/-- The main tag loop (`while (cursor.current < cursor.end)`, lines 107-227).
Outer `none` = fuel exhausted, which never happens (`main_loop_isSome`). -/
def main_loop : Nat → List frame → Str → Str →
    Option (Except xml_error_kind (List frame × Str))
  | 0, _, _, _ => none
  | fuel + 1, stack, pending, cs =>
    if cs = [] then some (.ok (stack, cs))
    else
      match main_step stack pending cs with
      | none => none
      | some .done => some (.ok (stack, cs))
      | some (.err e) => some (.error e)
      | some (.cont stack' pending' cs') => main_loop fuel stack' pending' cs'

/-- The trailing comment-skipping loop (lines 230-245). -/
def trail_loop : Nat → Str → Option (Except xml_error_kind Str)
  | 0, _ => none
  | fuel + 1, cs =>
    match trail_comment_head cs with
    | none => some (.ok cs)
    | some rest =>
      match comment_end_scan rest with
      | none => some (.error .missingClosingTag)
      | some (m1, rest2) =>
        if m1 = "-->".toList then trail_loop fuel rest2
        else some (.error .illegalComment)

/-- Version capture `(.+?)\"([\s\S]*?)\?>` of the declaration pattern: the lazy
non-newline group closes at the first `"` (consuming a `"` as content when no `?>`
follows, which is the engine's backtracking); the second lazy group runs to the
first `?>`.  Returns `(version, m[2], rest)`. -/
def scan_version (acc : Str) : Str → Option (Str × Str × Str)
  | [] => none
  | c :: rest =>
    if c = '"' ∧ acc ≠ [] then
      match findSub "?>".toList rest with
      | some (g2, r) => some (acc, g2, r)
      | none => scan_version (acc ++ [c]) rest
    else if c = '\n' ∨ c = '\r' then none
    else scan_version (acc ++ [c]) rest

/-- Declaration recognition `^<\?xml\s+version=\"(.+?)\"([\s\S]*?)\?>` plus the
version check (lines 78-91).  Returns `(version, m[2] attribute slice, rest)`. -/
def decl_scan (cs : Str) : Except xml_error_kind (Str × Str × Str) :=
  if "<?xml".toList.isPrefixOf cs then
    let t := cs.drop 5
    let w := (t.takeWhile is_space_char).length
    if w = 0 then .error .noXmlDeclaration
    else
      let t2 := t.drop w
      if "version=\"".toList.isPrefixOf t2 then
        match scan_version [] (t2.drop 9) with
        | none => .error .noXmlDeclaration
        | some (ver, g2, rest) =>
          if ver = "1.0".toList then .ok (ver, g2, rest)
          else .error .unsupportedVersion
      else .error .noXmlDeclaration
  else .error .noXmlDeclaration

/-- The resulting document (struct xml_document). -/
structure xml_document : Type where
  version : Str
  attributes : List (Str × Str)
  root_node : Option xml_node

/-- C++ `bbxml::parse_xml`.  `none` = some loop exhausted its fuel, which never
happens (`parse_xml_isSome`); otherwise the document or the raised error. -/
def parse_xml (cs : Str) : Option (Except xml_error_kind xml_document) :=
  match decl_scan cs with
  | .error e => some (.error e)
  | .ok (ver, g2, rest) =>
    match parse_xml_attributes g2 with
    | none => none
    | some none => some (.error .illegalAttributes)
    | some (some dattrs) =>
      match main_loop (rest.length + 1) [⟨[], [], []⟩] [] rest with
      | none => none
      | some (.error e) => some (.error e)
      | some (.ok (stack, cs1)) =>
        match trail_loop (cs1.length + 1) cs1 with
        | none => none
        | some (.error e) => some (.error e)
        | some (.ok cs2) =>
          if is_space cs2 then
            some (.ok
              { version := ver, attributes := dattrs,
                root_node :=
                  (match stack with
                   | [] => ([] : List xml_node)
                   | f :: up => collapse_stack f up).head? })
          else some (.error .illegalFormatTrailingContent)

/-- Root of a parse outcome, for stating claims. -/
def parsed_root (cs : Str) : Option xml_node :=
  match parse_xml cs with
  | some (.ok d) => d.root_node
  | _ => none

def parsed_root_name (cs : Str) : Option Str :=
  (parsed_root cs).map xml_node.name

def parsed_root_inner (cs : Str) : Option Str :=
  (parsed_root cs).map inner_text

/-- `true` when a children list is exactly one node named `#text` (the shape the
collapse rule of §4.5 is meant to rule out). -/
def lone_text (ns : List xml_node) : Bool :=
  match ns with
  | [n] => n.name = "#text".toList
  | _ => false

mutual

/-- The §3 children invariant: no node in this tree has a lone `#text` child. -/
def good_node : xml_node → Bool
  | .mk _ _ _ ns => !(lone_text ns) && good_list ns

def good_list : List xml_node → Bool
  | [] => true
  | n :: ns => good_node n && good_list ns

end

/-! ## Length facts about the scanners (each successful scan strictly consumes) -/

theorem splitAtChar_length {t : Char} :
    ∀ {cs b a : Str}, splitAtChar t cs = some (b, a) → a.length < cs.length := by
  intro cs
  induction cs with
  | nil => intro b a h; simp [splitAtChar] at h
  | cons c rest ih =>
    intro b a h
    by_cases hc : c = t
    · simp only [splitAtChar, hc, if_pos rfl] at h
      cases h
      simp
    · simp only [splitAtChar, if_neg hc] at h
      cases hr : splitAtChar t rest with
      | none => rw [hr] at h; simp at h
      | some p =>
        rw [hr] at h
        simp only [Option.map_some'] at h
        cases h
        have := ih hr
        simp only [List.length_cons]
        omega

theorem findSub_length {pat : Str} (hpat : pat ≠ []) :
    ∀ {cs b a : Str}, findSub pat cs = some (b, a) → a.length < cs.length := by
  intro cs
  induction cs with
  | nil =>
    intro b a h
    simp only [findSub] at h
    have : pat.isPrefixOf ([] : Str) = false := by
      cases pat with
      | nil => exact absurd rfl hpat
      | cons p ps => rfl
    rw [this] at h
    simp at h
  | cons c rest ih =>
    intro b a h
    simp only [findSub] at h
    by_cases hp : pat.isPrefixOf (c :: rest) = true
    · rw [if_pos hp] at h
      cases h
      have hlen : pat.length ≤ (c :: rest).length := List.IsPrefix.length_le (by
        exact (List.isPrefixOf_iff_prefix.mp hp))
      have h1 : 1 ≤ pat.length := by
        cases pat with
        | nil => exact absurd rfl hpat
        | cons p ps => simp
      simp only [List.length_drop]
      simp only [List.length_cons] at hlen ⊢
      omega
    · rw [if_neg hp] at h
      cases hr : findSub pat rest with
      | none => rw [hr] at h; simp at h
      | some p =>
        rw [hr] at h
        simp only [Option.map_some'] at h
        cases h
        have := ih hr
        simp only [List.length_cons]
        omega

theorem tag_head_length {cs g1 tag rest : Str}
    (h : tag_head cs = some (g1, tag, rest)) : rest.length < cs.length := by
  unfold tag_head at h
  cases hs : splitAtChar '<' cs with
  | none => rw [hs] at h; simp at h
  | some p =>
    obtain ⟨b, after⟩ := p
    have hlt := splitAtChar_length hs
    rw [hs] at h
    simp only at h
    by_cases h1 : ("!--".toList).isPrefixOf after = true
    · rw [if_pos h1] at h
      cases h
      simp only [List.length_drop]
      omega
    · rw [if_neg h1] at h
      by_cases h2 : ("![CDATA[".toList).isPrefixOf after = true
      · rw [if_pos h2] at h
        cases h
        simp only [List.length_drop]
        omega
      · rw [if_neg h2] at h
        cases h
        simp only [List.length_drop]
        omega

theorem comment_end_scan_length {cs m1 rest : Str}
    (h : comment_end_scan cs = some (m1, rest)) : rest.length < cs.length := by
  unfold comment_end_scan at h
  cases hs : splitAtChar '-' cs with
  | none => rw [hs] at h; simp at h
  | some p =>
    obtain ⟨pre, after⟩ := p
    have hlt := splitAtChar_length hs
    rw [hs] at h
    simp only at h
    split at h
    · cases h
      simp only [List.length_cons] at hlt
      omega
    · cases h
      simp only [List.length_cons, List.length_nil] at hlt
      simp only [List.length_nil]
      omega
    · simp at h

theorem close_scan_length {cs blob rest : Str} {b : Bool}
    (h : close_scan cs = some (blob, b, rest)) : rest.length < cs.length := by
  unfold close_scan at h
  cases hs : splitAtChar '>' cs with
  | none => rw [hs] at h; simp at h
  | some p =>
    obtain ⟨bl, r0⟩ := p
    have hlt := splitAtChar_length hs
    rw [hs] at h
    simp only at h
    by_cases hl : bl.getLast? = some '/'
    · rw [if_pos hl] at h; cases h; omega
    · rw [if_neg hl] at h; cases h; omega

theorem trail_comment_head_length {cs rest : Str}
    (h : trail_comment_head cs = some rest) : rest.length < cs.length := by
  unfold trail_comment_head at h
  cases hs : splitAtChar '<' cs with
  | none => rw [hs] at h; simp at h
  | some p =>
    obtain ⟨b, after⟩ := p
    have hlt := splitAtChar_length hs
    rw [hs] at h
    simp only at h
    by_cases h1 : ("!--".toList).isPrefixOf after = true
    · rw [if_pos h1] at h
      cases h
      simp only [List.length_drop]
      omega
    · rw [if_neg h1] at h
      simp at h

/-! ## Fuel sufficiency: every loop advances its cursor, so `length + 1` fuel is
always enough (claim C9). -/

theorem matchAttrHere_pos {cs : Str} {r : Nat × Str × Char × Str}
    (h : matchAttrHere cs = some r) : 1 ≤ r.1 := by
  simp only [matchAttrHere] at h
  repeat' split at h
  all_goals first
    | exact Option.noConfusion h
    | (cases h; simp)

theorem searchAttr_pos :
    ∀ {cs : Str} {r : Nat × Str × Char × Str}, searchAttr cs = some r → 1 ≤ r.1 := by
  intro cs
  induction cs with
  | nil => intro r h; simp [searchAttr] at h
  | cons c rest ih =>
    intro r h
    unfold searchAttr at h
    cases hm : matchAttrHere (c :: rest) with
    | some m => rw [hm] at h; cases h; exact matchAttrHere_pos hm
    | none => rw [hm] at h; exact ih h

theorem attr_loop_isSome :
    ∀ (fuel : Nat) (acc : List (Str × Str)) (cs : Str), cs.length < fuel →
      (attr_loop fuel acc cs).isSome = true := by
  intro fuel
  induction fuel with
  | zero => intro acc cs h; omega
  | succ f ih =>
    intro acc cs h
    unfold attr_loop
    cases hs : searchAttr cs with
    | none =>
      simp only [hs]
      by_cases hsp : is_space cs = true
      · rw [if_pos hsp]; rfl
      · rw [if_neg hsp]; rfl
    | some r =>
      obtain ⟨len, key, q, v⟩ := r
      have hpos : 1 ≤ len := searchAttr_pos hs
      have hne : cs ≠ [] := by
        intro hnil
        rw [hnil] at hs
        simp [searchAttr] at hs
      have hlen : (cs.drop len).length < f := by
        simp only [List.length_drop]
        cases cs with
        | nil => exact absurd rfl hne
        | cons a as => simp only [List.length_cons] at h ⊢; omega
      simp only [hs]
      cases hu : (if q = '"' then unescape_xml_attribute_value v
                  else unescape_xml_attribute_value_with_apos v) with
      | none => simp only [hu]; rfl
      | some val => simp only [hu]; exact ih (mapInsert key val acc) (cs.drop len) hlen

theorem parse_xml_attributes_isSome (cs : Str) :
    (parse_xml_attributes cs).isSome = true :=
  attr_loop_isSome (cs.length + 1) [] cs (by omega)

theorem push_text_ne_nil {stack : List frame} {v : Str} (hstack : stack ≠ []) :
    push_text stack v ≠ [] := by
  cases stack with
  | nil => exact absurd rfl hstack
  | cons f up => simp [push_text, append_child]

theorem main_step_tag_isSome {stack : List frame} {pending1 tag rest : Str}
    (hstack : stack ≠ []) : (main_step_tag stack pending1 tag rest).isSome = true := by
  have hobl : ∀ blob : Str, parse_xml_attributes blob ≠ none := by
    intro blob hn
    have := parse_xml_attributes_isSome blob
    rw [hn] at this
    simp at this
  have hstack1 : ∀ p1 : Str, (if is_space p1 then stack else push_text stack p1) ≠ [] := by
    intro p1
    by_cases hp : is_space p1 = true
    · rw [if_pos hp]; exact hstack
    · rw [if_neg hp]; exact push_text_ne_nil hstack
  unfold main_step_tag
  repeat' split
  all_goals try rfl
  any_goals (exfalso; rename_i heq; first | exact hobl _ heq | exact hstack1 _ heq)
  all_goals
    cases stack with
    | nil => exact absurd rfl hstack
    | cons f up =>
      simp only [push_text, append_child]
      repeat' split
      all_goals rfl

theorem main_step_tag_cont {stack s' : List frame} {pending1 p' tag rest c' : Str}
    (hstack : stack ≠ [])
    (h : main_step_tag stack pending1 tag rest = some (.cont s' p' c')) :
    s' ≠ [] ∧ c'.length < rest.length := by
  unfold main_step_tag at h
  by_cases h1 : tag = "!--".toList
  · rw [if_pos h1] at h
    cases hce : comment_end_scan rest with
    | none => rw [hce] at h; simp at h
    | some p =>
      obtain ⟨m1, rest2⟩ := p
      rw [hce] at h
      simp only at h
      by_cases hm : m1 = "-->".toList
      · rw [if_pos hm] at h
        cases h
        exact ⟨hstack, comment_end_scan_length hce⟩
      · rw [if_neg hm] at h
        simp at h
  · rw [if_neg h1] at h
    by_cases h2 : tag = "![CDATA[".toList
    · rw [if_pos h2] at h
      cases hfs : findSub "]]>".toList rest with
      | none => rw [hfs] at h; simp at h
      | some p =>
        obtain ⟨inner, rest2⟩ := p
        rw [hfs] at h
        simp only at h
        cases h
        exact ⟨hstack, findSub_length (by decide) hfs⟩
    · rw [if_neg h2] at h
      by_cases h3 : tag = []
      · rw [if_pos h3] at h; simp at h
      · rw [if_neg h3] at h
        by_cases h4 : validate_tag_name tag = false
        · rw [if_pos h4] at h; simp at h
        · rw [if_neg h4] at h
          cases hcs : close_scan rest with
          | none => rw [hcs] at h; simp at h
          | some p =>
            obtain ⟨blob, selfc, rest2⟩ := p
            have hlen := close_scan_length hcs
            rw [hcs] at h
            simp only at h
            cases hpa : parse_xml_attributes blob with
            | none => rw [hpa] at h; simp at h
            | some o =>
              rw [hpa] at h
              cases o with
              | none => simp at h
              | some attrs =>
                simp only at h
                have hstack1 : (if is_space pending1 = true then stack
                    else push_text stack pending1) ≠ [] := by
                  by_cases hp : is_space pending1 = true
                  · rw [if_pos hp]; exact hstack
                  · rw [if_neg hp]; exact push_text_ne_nil hstack
                by_cases h5 : tag.head? = some '/'
                · rw [if_pos h5] at h
                  by_cases h6 : selfc = true
                  · rw [if_pos h6] at h; simp at h
                  · rw [if_neg h6] at h
                    cases hst : (if is_space pending1 = true then stack
                        else push_text stack pending1) with
                    | nil => exact absurd hst hstack1
                    | cons cur up =>
                      rw [hst] at h
                      simp only at h
                      by_cases h7 : tag ≠ '/' :: cur.fname
                      · rw [if_pos h7] at h; simp at h
                      · rw [if_neg h7] at h
                        by_cases h8 : attrs ≠ []
                        · rw [if_pos h8] at h; simp at h
                        · rw [if_neg h8] at h
                          cases up with
                          | nil => simp at h
                          | cons par up2 =>
                            simp only at h
                            cases h
                            exact ⟨by simp, hlen⟩
                · rw [if_neg h5] at h
                  by_cases h6 : selfc = true
                  · rw [if_pos h6] at h
                    cases h
                    constructor
                    · cases hst : (if is_space pending1 = true then stack
                          else push_text stack pending1) with
                      | nil => exact absurd hst hstack1
                      | cons f up => simp [append_child, hst]
                    · exact hlen
                  · rw [if_neg h6] at h
                    cases h
                    exact ⟨by simp, hlen⟩

theorem main_step_isSome {stack : List frame} {pending cs : Str}
    (hstack : stack ≠ []) : (main_step stack pending cs).isSome = true := by
  unfold main_step
  cases ht : tag_head cs with
  | none => rfl
  | some p =>
    obtain ⟨g1, tag, rest⟩ := p
    simp only
    cases hu : unescape_xml_inner_text g1 with
    | none => rfl
    | some u => exact main_step_tag_isSome hstack

theorem main_step_cont {stack s' : List frame} {pending p' cs c' : Str}
    (hstack : stack ≠ [])
    (h : main_step stack pending cs = some (.cont s' p' c')) :
    s' ≠ [] ∧ c'.length < cs.length := by
  unfold main_step at h
  cases ht : tag_head cs with
  | none => rw [ht] at h; simp at h
  | some p =>
    obtain ⟨g1, tag, rest⟩ := p
    rw [ht] at h
    simp only at h
    cases hu : unescape_xml_inner_text g1 with
    | none => rw [hu] at h; simp at h
    | some u =>
      rw [hu] at h
      simp only at h
      have := main_step_tag_cont hstack h
      exact ⟨this.1, lt_trans this.2 (tag_head_length ht)⟩

theorem main_loop_isSome :
    ∀ (fuel : Nat) (stack : List frame) (pending cs : Str), stack ≠ [] →
      cs.length < fuel → (main_loop fuel stack pending cs).isSome = true := by
  intro fuel
  induction fuel with
  | zero => intro stack pending cs _ h; omega
  | succ f ih =>
    intro stack pending cs hstack h
    unfold main_loop
    by_cases hcs : cs = []
    · rw [if_pos hcs]; rfl
    · rw [if_neg hcs]
      cases hms : main_step stack pending cs with
      | none =>
        have := @main_step_isSome stack pending cs hstack
        rw [hms] at this
        simp at this
      | some r =>
        cases r with
        | done => rfl
        | err e => rfl
        | cont stack' pending' cs' =>
          have hc := main_step_cont hstack hms
          exact ih stack' pending' cs' hc.1 (by omega)

theorem trail_loop_isSome :
    ∀ (fuel : Nat) (cs : Str), cs.length < fuel →
      (trail_loop fuel cs).isSome = true := by
  intro fuel
  induction fuel with
  | zero => intro cs h; omega
  | succ f ih =>
    intro cs h
    unfold trail_loop
    cases ht : trail_comment_head cs with
    | none => rfl
    | some rest =>
      have h1 := trail_comment_head_length ht
      simp only
      cases hce : comment_end_scan rest with
      | none => rfl
      | some p =>
        obtain ⟨m1, rest2⟩ := p
        have h2 := comment_end_scan_length hce
        simp only
        by_cases hm : m1 = "-->".toList
        · rw [if_pos hm]
          exact ih rest2 (by omega)
        · rw [if_neg hm]; rfl

theorem parse_xml_isSome (cs : Str) : (parse_xml cs).isSome = true := by
  unfold parse_xml
  cases hd : decl_scan cs with
  | error e => rfl
  | ok p =>
    obtain ⟨ver, g2, rest⟩ := p
    simp only
    cases hpa : parse_xml_attributes g2 with
    | none =>
      have := parse_xml_attributes_isSome g2
      rw [hpa] at this
      simp at this
    | some o =>
      cases o with
      | none => rfl
      | some dattrs =>
        simp only
        cases hml : main_loop (rest.length + 1) [⟨[], [], []⟩] [] rest with
        | none =>
          have := main_loop_isSome (rest.length + 1) [⟨[], [], []⟩] [] rest
            (by simp) (by omega)
          rw [hml] at this
          simp at this
        | some r =>
          cases r with
          | error e => rfl
          | ok q =>
            obtain ⟨stack, cs1⟩ := q
            simp only
            cases htl : trail_loop (cs1.length + 1) cs1 with
            | none =>
              have := trail_loop_isSome (cs1.length + 1) cs1 (by omega)
              rw [htl] at this
              simp at this
            | some r2 =>
              cases r2 with
              | error e => rfl
              | ok cs2 =>
                simp only
                by_cases hsp : is_space cs2 = true
                · rw [if_pos hsp]; rfl
                · rw [if_neg hsp]; rfl

/-! ## The children invariant (claim C7): the main loop preserves goodness of every
frame's accumulated children. -/

theorem good_list_append {a b : List xml_node} :
    good_list (a ++ b) = (good_list a && good_list b) := by
  induction a with
  | nil => simp [good_list]
  | cons n ns ih => simp [good_list, ih, Bool.and_assoc]

theorem finish_node_good {f : frame} (h : good_list f.fchildren = true) :
    good_node (finish_node f) = true := by
  obtain ⟨fn, fa, fc⟩ := f
  simp only at h
  cases fc with
  | nil => simp [finish_node, good_node, good_list, lone_text]
  | cons c cs =>
    cases cs with
    | nil =>
      have hc : good_node c = true := by
        simp [good_list] at h
        exact h
      simp only [finish_node]
      by_cases hn : c.name = "#text".toList
      · rw [if_pos hn]
        simp [good_node, good_list, lone_text]
      · rw [if_neg hn]
        simp [good_node, good_list, lone_text, hc]
        exact hn
    | cons c2 cs2 =>
      simp only [good_list] at h
      simp [finish_node, good_node, good_list, lone_text, h]

theorem text_node_good {v : Str} : good_node (.mk "#text".toList [] v []) = true := by
  simp [good_node, good_list, lone_text]

theorem stack_good_push_text {stack : List frame} {v : Str}
    (h : stack.all (fun f => good_list f.fchildren) = true) :
    (push_text stack v).all (fun f => good_list f.fchildren) = true := by
  cases stack with
  | nil => simp [push_text, append_child]
  | cons f up =>
    simp only [push_text, append_child, List.all_cons, Bool.and_eq_true] at h ⊢
    refine ⟨?_, h.2⟩
    show good_list (f.fchildren ++ [xml_node.mk "#text".toList [] v []]) = true
    rw [good_list_append]
    simp only [Bool.and_eq_true]
    refine ⟨h.1, ?_⟩
    simp only [good_list, Bool.and_true]
    exact text_node_good

theorem main_step_tag_good {stack s' : List frame} {pending1 p' tag rest c' : Str}
    (hgood : stack.all (fun f => good_list f.fchildren) = true)
    (h : main_step_tag stack pending1 tag rest = some (.cont s' p' c')) :
    s'.all (fun f => good_list f.fchildren) = true := by
  unfold main_step_tag at h
  by_cases h1 : tag = "!--".toList
  · rw [if_pos h1] at h
    cases hce : comment_end_scan rest with
    | none => rw [hce] at h; simp at h
    | some p =>
      obtain ⟨m1, rest2⟩ := p
      rw [hce] at h
      simp only at h
      by_cases hm : m1 = "-->".toList
      · rw [if_pos hm] at h
        cases h
        exact hgood
      · rw [if_neg hm] at h
        simp at h
  · rw [if_neg h1] at h
    by_cases h2 : tag = "![CDATA[".toList
    · rw [if_pos h2] at h
      cases hfs : findSub "]]>".toList rest with
      | none => rw [hfs] at h; simp at h
      | some p =>
        obtain ⟨inner, rest2⟩ := p
        rw [hfs] at h
        simp only at h
        cases h
        exact hgood
    · rw [if_neg h2] at h
      by_cases h3 : tag = []
      · rw [if_pos h3] at h; simp at h
      · rw [if_neg h3] at h
        by_cases h4 : validate_tag_name tag = false
        · rw [if_pos h4] at h; simp at h
        · rw [if_neg h4] at h
          cases hcs : close_scan rest with
          | none => rw [hcs] at h; simp at h
          | some p =>
            obtain ⟨blob, selfc, rest2⟩ := p
            rw [hcs] at h
            simp only at h
            cases hpa : parse_xml_attributes blob with
            | none => rw [hpa] at h; simp at h
            | some o =>
              rw [hpa] at h
              cases o with
              | none => simp at h
              | some attrs =>
                simp only at h
                have hgood1 : (if is_space pending1 = true then stack
                    else push_text stack pending1).all
                    (fun f => good_list f.fchildren) = true := by
                  by_cases hp : is_space pending1 = true
                  · rw [if_pos hp]; exact hgood
                  · rw [if_neg hp]; exact stack_good_push_text hgood
                by_cases h5 : tag.head? = some '/'
                · rw [if_pos h5] at h
                  by_cases h6 : selfc = true
                  · rw [if_pos h6] at h; simp at h
                  · rw [if_neg h6] at h
                    cases hst : (if is_space pending1 = true then stack
                        else push_text stack pending1) with
                    | nil => rw [hst] at h; simp at h
                    | cons cur up =>
                      rw [hst] at h
                      rw [hst] at hgood1
                      simp only [List.all_cons] at hgood1
                      simp only at h
                      by_cases h7 : tag ≠ '/' :: cur.fname
                      · rw [if_pos h7] at h; simp at h
                      · rw [if_neg h7] at h
                        by_cases h8 : attrs ≠ []
                        · rw [if_pos h8] at h; simp at h
                        · rw [if_neg h8] at h
                          cases up with
                          | nil => simp at h
                          | cons par up2 =>
                            simp only at h
                            cases h
                            simp only [List.all_cons, Bool.and_eq_true] at hgood1 ⊢
                            refine ⟨?_, hgood1.2.2⟩
                            show good_list (par.fchildren ++ [finish_node cur]) = true
                            rw [good_list_append]
                            simp only [Bool.and_eq_true]
                            refine ⟨hgood1.2.1, ?_⟩
                            simp [good_list, finish_node_good hgood1.1]
                · rw [if_neg h5] at h
                  by_cases h6 : selfc = true
                  · rw [if_pos h6] at h
                    cases h
                    cases hst : (if is_space pending1 = true then stack
                        else push_text stack pending1) with
                    | nil => simp [append_child, hst]
                    | cons f up =>
                      rw [hst] at hgood1
                      simp only [append_child, List.all_cons, Bool.and_eq_true]
                        at hgood1 ⊢
                      refine ⟨?_, hgood1.2⟩
                      show good_list
                        (f.fchildren ++ [xml_node.mk tag attrs [] []]) = true
                      rw [good_list_append]
                      simp [hgood1.1, good_list, good_node, lone_text]
                  · rw [if_neg h6] at h
                    cases h
                    simp only [List.all_cons, Bool.and_eq_true]
                    exact ⟨by simp [good_list], hgood1⟩

theorem main_step_good {stack s' : List frame} {pending p' cs c' : Str}
    (hgood : stack.all (fun f => good_list f.fchildren) = true)
    (h : main_step stack pending cs = some (.cont s' p' c')) :
    s'.all (fun f => good_list f.fchildren) = true := by
  unfold main_step at h
  cases ht : tag_head cs with
  | none => rw [ht] at h; simp at h
  | some p =>
    obtain ⟨g1, tag, rest⟩ := p
    rw [ht] at h
    simp only at h
    cases hu : unescape_xml_inner_text g1 with
    | none => rw [hu] at h; simp at h
    | some u =>
      rw [hu] at h
      simp only at h
      exact main_step_tag_good hgood h

theorem main_loop_good :
    ∀ (fuel : Nat) (stack : List frame) (pending cs : Str)
      (stack' : List frame) (cs' : Str),
      stack.all (fun f => good_list f.fchildren) = true →
      main_loop fuel stack pending cs = some (.ok (stack', cs')) →
      stack'.all (fun f => good_list f.fchildren) = true := by
  intro fuel
  induction fuel with
  | zero => intro stack pending cs stack' cs' _ h; simp [main_loop] at h
  | succ f ih =>
    intro stack pending cs stack' cs' hgood h
    unfold main_loop at h
    by_cases hcs : cs = []
    · rw [if_pos hcs] at h
      cases h
      exact hgood
    · rw [if_neg hcs] at h
      cases hms : main_step stack pending cs with
      | none => rw [hms] at h; simp at h
      | some r =>
        rw [hms] at h
        cases r with
        | done => cases h; exact hgood
        | err e => simp at h
        | cont stack1 pending1 cs1 =>
          simp only at h
          exact ih stack1 pending1 cs1 stack' cs' (main_step_good hgood hms) h

/-! ## Comment scanning on dash-free bodies (claim C2) -/

theorem splitAtChar_skip {t : Char} :
    ∀ {body tail : Str}, (∀ c ∈ body, c ≠ t) →
      splitAtChar t (body ++ t :: tail) = some (body, tail) := by
  intro body
  induction body with
  | nil => intro tail _; simp [splitAtChar]
  | cons c bs ih =>
    intro tail hall
    have hc : ¬ c = t := hall c (by simp)
    simp only [List.cons_append, splitAtChar, if_neg hc, List.append_eq]
    rw [ih (fun x hx => hall x (by simp [hx]))]
    rfl

theorem comment_end_scan_clean {body rest : Str} (hall : ∀ c ∈ body, c ≠ '-') :
    comment_end_scan (body ++ '-' :: '-' :: '>' :: rest) =
      some ("-->".toList, rest) := by
  unfold comment_end_scan
  rw [splitAtChar_skip hall]
  rfl

namespace claims

/-- C1 (counterexample): on `<?xml version="1.0"?><root/>` the parse succeeds but
the root element is named `root/`, not `root`: the tag-name scan `[^>\s]*` consumes
the `/`, so it is NOT read as the self-closing marker as the claim states. -/
theorem claim_C1_counterexample :
    parsed_root_name ("<?xml version=\"1.0\"?><root/>".toList) =
        some ("root/".toList) ∧
      ("root/".toList : Str) ≠ "root".toList := by
  exact ⟨rfl, by decide⟩

/-- C1 (amended): `<?xml version="1.0"?><root/>` parses successfully into a root
element with zero children and empty value, but named `root/` — the `/` is consumed
into the tag name (the name pattern stops only at `>` or whitespace) and the tag is
an opening tag that is never closed, which the parser accepts at end of input.  With
whitespace before the slash, `<root />`, the `/` is recognised as the self-closing
marker and the root is named `root`. -/
theorem claim_C1_amended :
    parse_xml ("<?xml version=\"1.0\"?><root/>".toList) =
        some (Except.ok ⟨"1.0".toList, [],
          some (xml_node.mk ("root/".toList) [] [] [])⟩) ∧
      parse_xml ("<?xml version=\"1.0\"?><root />".toList) =
        some (Except.ok ⟨"1.0".toList, [],
          some (xml_node.mk ("root".toList) [] [] [])⟩) := by
  exact ⟨rfl, rfl⟩

/-- C2 (counterexample): the comment `<!-- a - b -->` is well formed in the claim's
sense (its body contains no `--`), yet the parse fails with MissingClosingTag: the
terminator scan `^[^-]*(--[\s\S]?)` requires the FIRST dash after `<!--` to start a
`--`, so a lone dash in the body kills the anchored match. -/
theorem claim_C2_counterexample :
    parse_xml ("<?xml version=\"1.0\"?><!-- a - b --><r />".toList) =
      some (Except.error xml_error_kind.missingClosingTag) := by
  exact rfl

/-- C2 (amended): a comment section `<!-- body -->` is skipped without error and
contributes nothing to the tree when the body contains no dash at all: for every
dash-free body the terminator scan matches exactly `-->` and leaves the rest of the
input, and a parse with such a comment yields the same tree as without it (a body
with a lone dash instead fails with MissingClosingTag, see the counterexample). -/
theorem claim_C2_amended :
    (∀ body rest : Str, (∀ c ∈ body, c ≠ '-') →
        comment_end_scan (body ++ '-' :: '-' :: '>' :: rest) =
          some ("-->".toList, rest)) ∧
      parse_xml ("<?xml version=\"1.0\"?><!-- comment --><r />".toList) =
        some (Except.ok ⟨"1.0".toList, [],
          some (xml_node.mk ("r".toList) [] [] [])⟩) := by
  exact ⟨fun body rest hall => comment_end_scan_clean hall, rfl⟩

/-- C2 (witness): the amended scan fact at the concrete dash-free body `ab`. -/
theorem claim_C2_witness :
    comment_end_scan ("ab".toList ++ '-' :: '-' :: '>' :: "tail".toList) =
      some ("-->".toList, "tail".toList) :=
  claim_C2_amended.1 ("ab".toList) ("tail".toList) (by decide)

/-- C3 (counterexample): `<?xml version="1.0"?><a>` has an opening tag that is never
closed, yet the parse SUCCEEDS and returns a document with root `a` — there is no
end-of-input check that all opened tags were closed. -/
theorem claim_C3_counterexample :
    parse_xml ("<?xml version=\"1.0\"?><a>".toList) =
      some (Except.ok ⟨"1.0".toList, [],
        some (xml_node.mk ("a".toList) [] [] [])⟩) := by
  exact rfl

/-- C3 (amended): matching of opening and closing tags is NOT enforced as an
end-of-input well-formedness rule — it is not true that every valid declaration
followed by a never-closed opening tag makes the parse fail.  Witness: the claim's
own example `<?xml version="1.0"?><a>` parses successfully, the unclosed element
`a` becoming the document root.  The matching rule is applied only when a closing
tag token actually appears: `<?xml version="1.0"?><a></b>` fails with
MismatchedClosingTag.  (Such inputs can still fail for reasons unrelated to tag
closure, e.g. trailing non-whitespace content or illegal attributes.) -/
theorem claim_C3_amended :
    parse_xml ("<?xml version=\"1.0\"?><a>".toList) =
        some (Except.ok ⟨"1.0".toList, [],
          some (xml_node.mk ("a".toList) [] [] [])⟩) ∧
      parse_xml ("<?xml version=\"1.0\"?><a></b>".toList) =
        some (Except.error xml_error_kind.mismatchedClosingTag) := by
  exact ⟨rfl, rfl⟩

/-- C4 (counterexample): `<?xml version="1.0"?><a />x<!--c-->` does NOT fail with
IllegalFormatTrailingContent: the main loop consumes `x<!--` as text-before-tag plus
comment, the `x` ends up in the pending text buffer and is silently discarded, and
the parse succeeds. -/
theorem claim_C4_counterexample :
    parse_xml ("<?xml version=\"1.0\"?><a />x<!--c-->".toList) =
      some (Except.ok ⟨"1.0".toList, [],
        some (xml_node.mk ("a".toList) [] [] [])⟩) := by
  exact rfl

/-- C4 (amended): non-whitespace content after the root element fails with
IllegalFormatTrailingContent only when no further `<` construct follows it (the scan
then stops with the text unconsumed); non-whitespace text followed by a trailing
comment is consumed into the pending-text buffer by the main loop and silently
discarded, so the parse succeeds. -/
theorem claim_C4_amended :
    parse_xml ("<?xml version=\"1.0\"?><a />x".toList) =
        some (Except.error xml_error_kind.illegalFormatTrailingContent) ∧
      parse_xml ("<?xml version=\"1.0\"?><a />y<!--c-->".toList) =
        some (Except.ok ⟨"1.0".toList, [],
          some (xml_node.mk ("a".toList) [] [] [])⟩) := by
  exact ⟨rfl, rfl⟩

/-- C5 (evaluation): a closing tag with a nonempty name and nothing open does fail
with MismatchedClosingTag, but `</>` — whose name after the `/` is empty — passes
the name check against the synthetic top container's empty name (`"/" == "/" + ""`),
pops the top container whose parent is null, and trips
`assert(current_node != nullptr)` (modelled as `assertionFailed`; with NDEBUG this
is undefined behaviour) instead of raising MismatchedClosingTag. -/
theorem claim_C5_eval :
    parse_xml ("<?xml version=\"1.0\"?></>".toList) =
        some (Except.error xml_error_kind.assertionFailed) ∧
      parse_xml ("<?xml version=\"1.0\"?></a>".toList) =
        some (Except.error xml_error_kind.mismatchedClosingTag) := by
  exact ⟨rfl, rfl⟩

/-- C6: entity unescaping rewrites exactly the five named entities in the fixed
order lt, gt, apos, quot, amp and leaves syntactically valid numeric references
untouched: `parse("<?xml version=\"1.0\"?><value>&</value>")` fails with
NoEscapedCharacter; the five-entity input succeeds and the root's inner_text equals
`<>'"&`; numeric references pass through literally; and `&amp;lt;` unescapes to
`&lt;` (evidencing that `&lt;` is rewritten before `&amp;`). -/
theorem claim_C6 :
    parse_xml ("<?xml version=\"1.0\"?><value>&</value>".toList) =
        some (Except.error xml_error_kind.noEscapedCharacter) ∧
      parse_xml
          ("<?xml version=\"1.0\"?><value>&lt;&gt;&apos;&quot;&amp;</value>".toList) =
        some (Except.ok ⟨"1.0".toList, [],
          some (xml_node.mk ("value".toList) []
            ("<>".toList ++ [apos_char, '"', '&']) [])⟩) ∧
      parsed_root_inner
          ("<?xml version=\"1.0\"?><value>&lt;&gt;&apos;&quot;&amp;</value>".toList) =
        some ("<>".toList ++ [apos_char, '"', '&']) ∧
      parse_xml ("<?xml version=\"1.0\"?><v>&#160;&#x2663;</v>".toList) =
        some (Except.ok ⟨"1.0".toList, [],
          some (xml_node.mk ("v".toList) [] ("&#160;&#x2663;".toList) [])⟩) ∧
      unescape_xml_inner_text ("&amp;lt;".toList) = some ("&lt;".toList) := by
  refine ⟨rfl, rfl, ?_, rfl, rfl⟩
  simp only [parsed_root_inner, parsed_root]
  rw [show parse_xml
      ("<?xml version=\"1.0\"?><value>&lt;&gt;&apos;&quot;&amp;</value>".toList) =
      some (Except.ok ⟨"1.0".toList, [],
        some (xml_node.mk ("value".toList) []
          ("<>".toList ++ [apos_char, '"', '&']) [])⟩) from rfl]
  simp [inner_text, inner_text_list]

/-- C7 (counterexample): on `<?xml version="1.0"?><a><#text />` the parse succeeds
and the root `a` has exactly one child named `#text` (an element produced by the
`<#text />` tag): the collapse step only runs when a closing tag is matched, and `a`
is never closed, so the lone `#text`-named child survives. -/
theorem claim_C7_counterexample :
    parse_xml ("<?xml version=\"1.0\"?><a><#text />".toList) =
        some (Except.ok ⟨"1.0".toList, [],
          some (xml_node.mk ("a".toList) [] []
            [xml_node.mk ("#text".toList) [] [] []])⟩) ∧
      lone_text (xml_node.mk ("a".toList) [] []
        [xml_node.mk ("#text".toList) [] [] []]).nodes = true := by
  exact ⟨rfl, rfl⟩

/-- C7 (amended): whenever the main tag loop finishes normally, every frame of the
resulting open-element stack has children satisfying the invariant (no node anywhere
below them has exactly one lone `#text`-named child): starting from the synthetic
top container, the invariant is preserved by every step, because a materialised text
child in a closing step is collapsed and in an opening/self-closing step gains an
element sibling.  In particular, when the scan ends with only the top container open
— i.e. every opened element was closed — the whole returned tree satisfies the
invariant; the counterexample shows it can fail for an element left unclosed at end
of input.  Scenario D behaves as claimed: `<a><b>x</b></a>` gives root `a` with one
child `b`, `b.value = "x"` collapsed and `b` childless. -/
theorem claim_C7_amended :
    (∀ (fuel : Nat) (cs : Str) (stack' : List frame) (rest : Str),
        main_loop fuel [⟨[], [], []⟩] [] cs = some (Except.ok (stack', rest)) →
        stack'.all (fun f => good_list f.fchildren) = true) ∧
      parse_xml ("<?xml version=\"1.0\"?><a><b>x</b></a>".toList) =
        some (Except.ok ⟨"1.0".toList, [],
          some (xml_node.mk ("a".toList) [] []
            [xml_node.mk ("b".toList) [] ("x".toList) []])⟩) := by
  constructor
  · intro fuel cs stack' rest h
    exact main_loop_good fuel [⟨[], [], []⟩] [] cs stack' rest (by simp [good_list]) h
  · exact rfl

/-- C7 (witness): the amended invariant applied to the concrete run of the main loop
on `<a></a>`, whose final stack is the top container holding the closed element. -/
theorem claim_C7_witness :
    ([⟨[], [], [xml_node.mk ("a".toList) [] [] []]⟩] : List frame).all
      (fun f => good_list f.fchildren) = true :=
  claim_C7_amended.1 8 ("<a></a>".toList)
    [⟨[], [], [xml_node.mk ("a".toList) [] [] []]⟩] [] rfl

/-- C8 (counterexample): the input `<?xml version="1.0"?><#text a="1"><b /></#text>`
produces a root NODE named `#text` that carries an attribute and a child element:
tag-name validation rejects only `<`, `>`, `'`, `"`, `&`, so the name `#text` is not
reserved, contradicting the claim. -/
theorem claim_C8_counterexample :
    parsed_root ("<?xml version=\"1.0\"?><#text a=\"1\"><b /></#text>".toList) =
        some (xml_node.mk ("#text".toList) [("a".toList, "1".toList)] []
          [xml_node.mk ("b".toList) [] [] []]) ∧
      (xml_node.mk ("#text".toList) [("a".toList, "1".toList)] []
          [xml_node.mk ("b".toList) [] [] []]).attributes.length = 1 ∧
      (xml_node.mk ("#text".toList) [("a".toList, "1".toList)] []
          [xml_node.mk ("b".toList) [] [] []]).nodes.length = 1 := by
  exact ⟨rfl, rfl, rfl⟩

/-- C8 (amended): synthetic text nodes created by the parser are indeed named
`#text` with no children and no attributes (here: the text node materialised for
`t` before `<a />`), but the name is not reserved: `validate_tag_name` accepts
`#text`, so an input tag `<#text ...>` produces an element node of that name
carrying attributes and children (see the counterexample). -/
theorem claim_C8_amended :
    validate_tag_name ("#text".toList) = true ∧
      parsed_root ("<?xml version=\"1.0\"?>t<a />".toList) =
        some (xml_node.mk ("#text".toList) [] ("t".toList) []) := by
  exact ⟨rfl, rfl⟩

/-- C9: parse terminates on every input: with fuel `length + 1` for each scanning
loop (main tag loop, trailing-comment loop, attribute-pair loop) the parse always
returns a document or an error — the fuel is never exhausted, because every
iteration of each loop strictly advances its cursor or stops. -/
theorem claim_C9 : ∀ cs : Str, (parse_xml cs).isSome = true :=
  fun cs => parse_xml_isSome cs

/-- C10: when the synthetic top container ends a successful parse with more than one
child, parse still succeeds and only the first child is exposed as root: two
self-closed elements at top level yield root `a` with `b` silently discarded, and
non-blank text before the first element becomes a top-level `#text` node that is
itself exposed as root, the element after it being discarded. -/
theorem claim_C10 :
    parse_xml ("<?xml version=\"1.0\"?><a /><b />".toList) =
        some (Except.ok ⟨"1.0".toList, [],
          some (xml_node.mk ("a".toList) [] [] [])⟩) ∧
      parse_xml ("<?xml version=\"1.0\"?>x<a />".toList) =
        some (Except.ok ⟨"1.0".toList, [],
          some (xml_node.mk ("#text".toList) [] ("x".toList) [])⟩) := by
  exact ⟨rfl, rfl⟩

end claims

end XMLParser
